import Mathlib

/-!
Verification development for the REFTEK130 reader (obspy/io/reftek/core.py).

The file models, over lists of bytes (`List Nat`, each below 256) and exact
rational times, the four stages of the reader:

* the packet codec `Packet.from_string` (bytes 0-1 ASCII type, bytes 2-15
  packed-decimal header, bytes 16-1023 payload);
* the file sniffer `_is_reftek130`;
* the packet sequencer `_parse_next_packet` / `_read_into_packetlist`;
* the trace assembler `_read_reftek130` (contiguity check, EH search, DT
  collection, per-channel run splitting, trace emission and channel naming),
  taken from the point where the packet list has been read from the file.

External collaborators that are not among the source files (the packet-type
table of the header module, the short-time parser, the Steim-1 decompressor
and the Trace container) are modelled from the spec; each such definition
carries a doc comment saying so.
-/

set_option maxRecDepth 100000

/-- Modelled from the spec: PACKETS_IMPLEMENTED, the fixed enumerated set of
recognized two-letter packet type codes, lives in the header module, which is
not among the source files; the spec names the EH, DT and ET packet variants. -/
def PACKETS_IMPLEMENTED : List String := ["EH", "ET", "DT"]

/-- Python str.strip(): whitespace removed from both ends. -/
def pyStrip (s : String) : String :=
  String.mk (((s.data.dropWhile (fun c => c.isWhitespace)).reverse.dropWhile
    (fun c => c.isWhitespace)).reverse)

/-- The nibble string codecs.encode(string[:16], "hex_codec") yields, one
entry per hex character: high nibble then low nibble of each of the first 16
bytes. -/
def hexDigits (s : List Nat) : List Nat :=
  (s.take 16).flatMap (fun b => [b / 16, b % 16])

/-- One hex digit as the hex codec renders it (lowercase letters). -/
def hexChar (n : Nat) : Char :=
  if n < 10 then Char.ofNat (48 + n) else Char.ofNat (87 + n)

/-- One hex digit as Python str.upper() renders the lowercase hex digit. -/
def hexCharUpper (n : Nat) : Char :=
  if n < 10 then Char.ofNat (48 + n) else Char.ofNat (55 + n)

/-- Python int() applied to a slice of the hex-digit string: every character
must be a decimal digit, so every nibble must be below 10 (the letters a-f
raise ValueError); the value reads the digits in base 10. -/
def intOfNibs (l : List Nat) : Option Nat :=
  if l = [] then none
  else if l.all (fun d => d < 10) then
    some (l.foldl (fun acc d => acc * 10 + d) 0)
  else none

/-- Python bytes.decode("ASCII") (strict): fails when a byte is 128 or more. -/
def decodeAscii (bs : List Nat) : Option String :=
  if bs.all (fun b => b < 128) then some (String.mk (bs.map Char.ofNat)) else none

/-- Modelled from the spec: the external short-time parser (util.py, not among
the source files) is an abstract collaborator mapping a year and a digit
string to a timestamp; it is modelled as the pair itself. -/
structure ShortTime where
  year : Nat
  digits : String
deriving DecidableEq, Repr

def _parse_short_time (year : Nat) (digits : String) : ShortTime :=
  ⟨year, digits⟩

/-- The record Packet.__init__ builds from one 1024-byte block. The per-type
payload field table lives in the header module, outside the source files, so
the payload is kept as the raw bytes 16-1023. -/
structure Packet where
  type : String
  experiment_number : String
  year : Nat
  unit_id : String
  time : Option ShortTime
  byte_count : Nat
  packet_sequence : Nat
  payload : List Nat
deriving DecidableEq, Repr

/-- Packet.from_string: a block of a length other than 1024 yields no packet
(warned, not fatal: ok none); the type is the ASCII decode of bytes 0-1 (an
exception for non-ASCII bytes); the packed-decimal header fields come from
the hex-digit string of bytes 0-15; int() raises on hex letters; the
constructor raises ValueError on an unrecognized type; the payload is bytes
16-1023. Exceptions are Except.error values. -/
def Packet.from_string (s : List Nat) : Except String (Option Packet) :=
  if s.length ≠ 1024 then Except.ok none
  else
    match decodeAscii (s.take 2) with
    | none => Except.error "UnicodeDecodeError"
    | some packet_type =>
      match intOfNibs (((hexDigits s).drop 6).take 2) with
      | none => Except.error "ValueError: int() on the year digits"
      | some year =>
        match intOfNibs (((hexDigits s).drop 24).take 4) with
        | none => Except.error "ValueError: int() on the byte count digits"
        | some byte_count =>
          match intOfNibs (((hexDigits s).drop 28).take 4) with
          | none => Except.error "ValueError: int() on the packet sequence digits"
          | some packet_sequence =>
            if packet_type ∉ PACKETS_IMPLEMENTED then
              Except.error "ValueError: invalid packet type"
            else
              Except.ok (some
                { type := packet_type
                  experiment_number :=
                    String.mk ((((hexDigits s).drop 4).take 2).map hexChar)
                  year := year
                  unit_id :=
                    String.mk ((((hexDigits s).drop 8).take 4).map hexCharUpper)
                  time :=
                    if year ≠ 0 then
                      some (_parse_short_time year
                        (String.mk ((((hexDigits s).drop 12).take 12).map hexChar)))
                    else none
                  byte_count := byte_count
                  packet_sequence := packet_sequence
                  payload := s.drop 16 })

/-- _parse_next_packet: the block is what fh.read(1024) returned. none at end
of file, for an incomplete block (warned and dropped), and when decoding
raised (caught and warned). -/
def _parse_next_packet (block : List Nat) : Option Packet :=
  if block.isEmpty then none
  else if block.length < 1024 then none
  else
    match Packet.from_string block with
    | Except.ok r => r
    | Except.error _ => none

/-- _read_into_packetlist: read blocks of 1024 bytes, appending packets while
_parse_next_packet keeps returning one; the loop ends at the first block for
which it returns none. -/
def _read_into_packetlist (bytes : List Nat) : List Packet :=
  if bytes.isEmpty then []
  else
    match _parse_next_packet (bytes.take 1024) with
    | none => []
    | some p => p :: _read_into_packetlist (bytes.drop 1024)
termination_by bytes.length
decreasing_by
  rename_i h
  have hne : bytes ≠ [] := fun he => h (by simp [he])
  have : 0 < bytes.length := List.length_pos_of_ne_nil hne
  simp only [List.length_drop]
  omega

/-- The n-th 1024-byte block read from the file. -/
def blockAt (bytes : List Nat) (n : Nat) : List Nat :=
  (bytes.drop (1024 * n)).take 1024

/-- Python bytes.decode("ASCII", "ignore"): bytes of 128 or more are dropped. -/
def decodeAsciiIgnore (bs : List Nat) : String :=
  String.mk ((bs.filter (fun b => b < 128)).map Char.ofNat)

/-- The scan loop of _is_reftek130: read the two type bytes at the head of
each 1024-byte stride; an empty decoded string ends the scan with True (this
is how end of file is detected); an unrecognized type returns False. -/
def scanPacketTypes (bytes : List Nat) : Bool :=
  if bytes.isEmpty then true
  else
    let t := decodeAsciiIgnore (bytes.take 2)
    if t = "" then true
    else if t ∈ PACKETS_IMPLEMENTED then scanPacketTypes (bytes.drop 1024)
    else false
termination_by bytes.length
decreasing_by
  rename_i h
  have hne : bytes ≠ [] := fun he => h (by simp [he])
  have : 0 < bytes.length := List.length_pos_of_ne_nil hne
  simp only [List.length_drop]
  omega

/-- _is_reftek130: none stands for a path that is not a regular file; some
bytes for a regular file with those contents. False unless the size is a
positive multiple of 1024; then the stride scan decides. -/
def _is_reftek130 (file : Option (List Nat)) : Bool :=
  match file with
  | none => false
  | some bytes =>
    if bytes.length < 1024 ∨ bytes.length % 1024 ≠ 0 then false
    else scanPacketTypes bytes

/-- Modelled from the spec: the decoded payload fields of the EH (event
header) packet that _read_reftek130 reads (the per-type field tables live in
the header module, outside the source files). -/
structure EHFields where
  station_name : String
  station_name_extension : String
  stream_name : String
  sampling_rate : ℚ
  channel_code : List (Option String)
deriving DecidableEq

/-- Modelled from the spec: the per-type payload variant of a decoded packet
as the trace assembler reads it. With the modelled type set, every packet is
an EH, ET or DT packet. -/
inductive Payload where
  | eh (fields : EHFields)
  | et
  | dt (channel_number : Nat) (data_format : String)
       (number_of_samples : Nat) (sample_data : List Nat)
deriving DecidableEq

/-- A decoded packet as the trace assembler sees it: the header fields it
reads (packet_sequence and the absolute time, an exact rational) plus the
payload variant. -/
structure DecodedPacket where
  packet_sequence : Nat
  time : ℚ
  payload : Payload
deriving DecidableEq

def Payload.typeCode : Payload → String
  | Payload.eh _ => "EH"
  | Payload.et => "ET"
  | Payload.dt _ _ _ _ => "DT"

def DecodedPacket.type (p : DecodedPacket) : String :=
  p.payload.typeCode

/-- The distinguishable failure kinds _read_reftek130 raises, one constructor
per raise site: noPackets is the Exception for an empty packet list;
nonContiguous the NotImplementedError for an interrupted packet sequence;
indexError a list.pop(0) or subscript on an out-of-range index (in
particular, no EH packet found); unimplementedEncoding the
NotImplementedError for a data format other than C0 (the message formats
p.type); inconsistentTrace the Exception for a trace failing the endtime or
sample-count assertions. -/
inductive RErr where
  | noPackets
  | nonContiguous
  | indexError
  | unimplementedEncoding (s : String)
  | inconsistentTrace
deriving DecidableEq

/-- The non-fatal warnings _read_reftek130 emits. -/
inductive Warn where
  | droppedLeading (n : Nat)
  | notEndingET
  | fallbackNaming
deriving DecidableEq

/-- np.diff: each element minus its predecessor (the packet sequence list is
sorted ascending when this is applied, so Nat subtraction is exact). -/
def npDiff (l : List Nat) : List Nat :=
  List.zipWith (fun a b => a - b) l.tail l

/-- np.bincount: entry v counts the occurrences of v, for v up to the largest
value present; the empty list gives the empty histogram. -/
def bincount (l : List Nat) : List Nat :=
  if l.isEmpty then []
  else (List.range (l.foldr max 0 + 1)).map (fun v => l.count v)

/-- The packet-sequence contiguity check (np.testing.assert_array_equal of
the diff histogram against [0, packet count - 1]). -/
def checkSequence (packets : List DecodedPacket) : Bool :=
  decide (bincount (npDiff (packets.map (fun p => p.packet_sequence)))
    = [0, packets.length - 1])

/-- sorted(packets, key=lambda x: x.packet_sequence): a stable sort by
sequence number. -/
def sortBySeq (packets : List DecodedPacket) : List DecodedPacket :=
  List.insertionSort (fun a b => a.packet_sequence ≤ b.packet_sequence) packets

/-- The pop-until-EH loop: pop packets, counting the dropped ones, until the
first EH packet; pop from an exhausted list raises IndexError. -/
def dropToEH : List DecodedPacket → Nat → Except RErr (EHFields × List DecodedPacket × Nat)
  | [], _ => Except.error RErr.indexError
  | p :: rest, dropped =>
    match p.payload with
    | Payload.eh f => Except.ok (f, rest, dropped)
    | _ => dropToEH rest (dropped + 1)

/-- The tuple appended per DT packet: (time, packet_sequence,
number_of_samples, sample_data). -/
structure Chunk where
  t : ℚ
  seq : Nat
  npts : Nat
  dat : List Nat
deriving DecidableEq

/-- data.setdefault(channel_number, []).append(tuple): channel buckets keyed
in first-encounter order. -/
def bucketAdd : List (Nat × List Chunk) → Nat → Chunk → List (Nat × List Chunk)
  | [], ch, c => [(ch, [c])]
  | (k, l) :: rest, ch, c =>
    if k = ch then (k, l ++ [c]) :: rest else (k, l) :: bucketAdd rest ch c

/-- The bucket of one channel (empty when the channel has no bucket). -/
def bucketFind (b : List (Nat × List Chunk)) (ch : Nat) : List Chunk :=
  match b.find? (fun e => e.1 == ch) with
  | some e => e.2
  | none => []

/-- The DT-collection loop: consume packets while they are DT packets,
requiring data format "C0" (any other format raises NotImplementedError,
whose message formats p.type), bucketing each tuple under its channel
number. Returns the buckets, the last popped packet (the first non-DT
packet, or the final DT packet when the list ran out) and the packets never
popped. -/
def collectDT : List (Nat × List Chunk) → DecodedPacket → List DecodedPacket →
    Except RErr (List (Nat × List Chunk) × DecodedPacket × List DecodedPacket)
  | buckets, p, packets =>
    match p.payload with
    | Payload.dt ch fmt ns sd =>
      if fmt ≠ "C0" then Except.error (RErr.unimplementedEncoding p.type)
      else
        let buckets2 := bucketAdd buckets ch ⟨p.time, p.packet_sequence, ns, sd⟩
        match packets with
        | [] => Except.ok (buckets2, p, [])
        | q :: rest => collectDT buckets2 q rest
    | _ => Except.ok (buckets, p, packets)

/-- Python list comparison on the sample bytes, lexicographic. -/
def listLe : List Nat → List Nat → Bool
  | [], _ => true
  | _ :: _, [] => false
  | a :: l1, b :: l2 =>
    if a < b then true else if b < a then false else listLe l1 l2

/-- Python tuple comparison on (time, sequence, sample count, bytes), as
sorted() uses on the per-channel tuples. -/
def chunkLe (a b : Chunk) : Bool :=
  if a.t < b.t then true else if b.t < a.t then false
  else if a.seq < b.seq then true else if b.seq < a.seq then false
  else if a.npts < b.npts then true else if b.npts < a.npts then false
  else listLe a.dat b.dat

/-- sorted(data_): the per-channel defensive sort by start time (then the
rest of the tuple). -/
def sortChunks (l : List Chunk) : List Chunk :=
  List.insertionSort (fun a b => chunkLe a b = true) l

/-- The body of the contiguity-splitting loop: chunk_list is the current run
(never empty) and lastc its last element; a tuple whose start time is not
exactly the last tuple's start plus its sample count times delta opens a new
run. -/
def splitGo (delta : ℚ) (chunk_list : List Chunk) (lastc : Chunk) :
    List Chunk → List (List Chunk)
  | [] => [chunk_list]
  | c :: rest =>
    if c.t = lastc.t + (lastc.npts : ℚ) * delta then
      splitGo delta (chunk_list ++ [c]) c rest
    else chunk_list :: splitGo delta [c] c rest

/-- Split one channel's sorted tuples into maximal contiguous runs. The
empty case is unreachable at the call site: every bucket holds at least one
tuple (data_.pop(0) would raise there). -/
def splitContiguous (delta : ℚ) : List Chunk → List (List Chunk)
  | [] => []
  | c :: rest => splitGo delta [c] c rest

/-- Modelled from the spec: the external sample-decompression codec
_unpack_steim_1 (obspy.io.mseed.util, not among the source files), an opaque
function from compressed bytes and a declared sample count to a numeric
sequence whose length is the declared count. -/
def _unpack_steim_1 (data_bytes : List Nat) (npts : Nat) : List Int :=
  List.replicate npts 0

/-- Modelled from the spec: the external Trace container holds the samples,
the identification headers and a start time; its end time is start time plus
(sample count - 1) sample periods. -/
structure RTrace where
  network : String
  station : String
  location : String
  sampling_rate : ℚ
  channel : String
  starttime : ℚ
  data : List Int
deriving DecidableEq

def RTrace.endtime (tr : RTrace) : ℚ :=
  tr.starttime + ((tr.data.length : ℚ) - 1) * (1 / tr.sampling_rate)

/-- The channel-code resolution (the three-tier policy): explicit
component_codes win, then a non-null EH channel-code table entry, then the
stream label with the decimal channel number (with the fallback warning,
returned as the Bool). An out-of-range subscript raises IndexError. -/
def channelCodeOf (component_codes : Option (List String)) (eh : EHFields)
    (channel_number : Nat) : Except RErr (String × Bool) :=
  match component_codes with
  | some codes =>
    match codes.get? channel_number with
    | some code => Except.ok (pyStrip eh.stream_name ++ code, false)
    | none => Except.error RErr.indexError
  | none =>
    match eh.channel_code.get? channel_number with
    | some (some code) => Except.ok (code, false)
    | some none =>
      Except.ok (pyStrip eh.stream_name ++ toString channel_number, true)
    | none => Except.error RErr.indexError

/-- Build one trace from one contiguous run: decompress and concatenate the
sample pieces, set the start time, resolve the channel code, then check that
the declared sample count matches the data length and that the trace endtime
matches both the last tuple's timing and the start-time formula; a failed
check raises the inconsistent-trace Exception. An empty run would subscript
an empty list (IndexError); the call site never passes one. -/
def traceOfRun (network location station : String)
    (component_codes : Option (List String)) (eh : EHFields)
    (channel_number : Nat) (run : List Chunk) : Except RErr (RTrace × Bool) :=
  match run with
  | [] => Except.error RErr.indexError
  | c0 :: rest =>
    let delta : ℚ := 1 / eh.sampling_rate
    let pieces := (c0 :: rest).map (fun c => _unpack_steim_1 (c.dat.drop 44) c.npts)
    let npts := ((c0 :: rest).map (fun c => c.npts)).sum
    match channelCodeOf component_codes eh channel_number with
    | Except.error e => Except.error e
    | Except.ok (code, warned) =>
      let tr : RTrace :=
        ⟨network, station, location, eh.sampling_rate, code, c0.t, pieces.flatten⟩
      let lastc := (c0 :: rest).getLast (List.cons_ne_nil c0 rest)
      if npts = tr.data.length
          ∧ tr.endtime = lastc.t + ((lastc.npts : ℚ) - 1) * delta
          ∧ tr.endtime = tr.starttime + ((npts : ℚ) - 1) * delta
      then Except.ok (tr, warned)
      else Except.error RErr.inconsistentTrace

/-- Emit one trace per run, in run order; the fallback-naming warnings are
collected beside the outcome. -/
def emitRuns (network location station : String)
    (component_codes : Option (List String)) (eh : EHFields)
    (channel_number : Nat) : List (List Chunk) → Except RErr (List RTrace) × List Warn
  | [] => (Except.ok [], [])
  | run :: rest =>
    match traceOfRun network location station component_codes eh channel_number run with
    | Except.error e => (Except.error e, [])
    | Except.ok (tr, warned) =>
      let ws0 := if warned then [Warn.fallbackNaming] else []
      match emitRuns network location station component_codes eh channel_number rest with
      | (Except.error e, ws) => (Except.error e, ws0 ++ ws)
      | (Except.ok trs, ws) => (Except.ok (tr :: trs), ws0 ++ ws)

/-- Per-channel reconstruction, in bucket encounter order: sort each
channel's tuples, split them into contiguous runs and emit the runs'
traces. -/
def emitChannels (network location station : String)
    (component_codes : Option (List String)) (eh : EHFields) :
    List (Nat × List Chunk) → Except RErr (List RTrace) × List Warn
  | [] => (Except.ok [], [])
  | (ch, chunks) :: rest =>
    let runs := splitContiguous (1 / eh.sampling_rate) (sortChunks chunks)
    match emitRuns network location station component_codes eh ch runs with
    | (Except.error e, ws) => (Except.error e, ws)
    | (Except.ok trs, ws) =>
      match emitChannels network location station component_codes eh rest with
      | (Except.error e, ws2) => (Except.error e, ws ++ ws2)
      | (Except.ok trs2, ws2) => (Except.ok (trs ++ trs2), ws ++ ws2)

/-- _read_reftek130 from the point where the packet list has been read from
the file: sort by packet sequence, reject an empty list, check sequence
contiguity, find the EH packet (dropping and counting leading non-EH
packets), collect the DT packets, warn when the run does not end in an ET
packet, then reconstruct every channel. Returns the traces or the fatal
error, beside the warnings emitted before the outcome. -/
def _read_reftek130 (network location : String)
    (component_codes : Option (List String)) (packets0 : List DecodedPacket) :
    Except RErr (List RTrace) × List Warn :=
  let packets := sortBySeq packets0
  if packets.isEmpty then (Except.error RErr.noPackets, [])
  else if checkSequence packets = false then (Except.error RErr.nonContiguous, [])
  else
    match dropToEH packets 0 with
    | Except.error e => (Except.error e, [])
    | Except.ok (eh, rest, dropped) =>
      let warns1 := if dropped ≠ 0 then [Warn.droppedLeading dropped] else []
      let station := pyStrip (eh.station_name ++ eh.station_name_extension)
      match rest with
      | [] => (Except.error RErr.indexError, warns1)
      | p :: rest2 =>
        match collectDT [] p rest2 with
        | Except.error e => (Except.error e, warns1)
        | Except.ok (buckets, plast, _) =>
          let warns2 := warns1 ++ (if plast.type ≠ "ET" then [Warn.notEndingET] else [])
          match emitChannels network location station component_codes eh buckets with
          | (r, ws) => (r, warns2 ++ ws)

deriving instance DecidableEq for Except

theorem mem_le_foldr_max (l : List Nat) (x : Nat) (hx : x ∈ l) :
    x ≤ l.foldr max 0 := by
  induction l with
  | nil => simp at hx
  | cons a t ih =>
    rcases List.mem_cons.mp hx with h | h
    · subst h; exact Nat.le_max_left _ _
    · exact le_trans (ih h) (Nat.le_max_right _ _)

theorem bincount_eq_pair (l : List Nat) (k : Nat)
    (h : bincount l = [0, k]) :
    l ≠ [] ∧ (∀ x ∈ l, x = 1) ∧ l.count 1 = k := by
  by_cases he : l.isEmpty
  · simp [bincount, he] at h
  · have hne : l ≠ [] := by simpa [List.isEmpty_iff] using he
    simp only [bincount, he, if_neg, Bool.false_eq_true, not_false_eq_true,
      if_false] at h
    have hlen : (List.range (l.foldr max 0 + 1)).length = 2 := by
      have := congrArg List.length h
      simpa using this
    rw [List.length_range] at hlen
    have hmax : l.foldr max 0 = 1 := by omega
    rw [hmax] at h
    have hrange : List.range 2 = [0, 1] := rfl
    rw [hrange] at h
    simp only [List.map_cons, List.map_nil, List.cons.injEq, and_true] at h
    obtain ⟨h0, h1⟩ := h
    refine ⟨hne, ?_, h1⟩
    intro x hx
    have hle : x ≤ 1 := by rw [← hmax]; exact mem_le_foldr_max l x hx
    have hx0 : x ≠ 0 := by
      intro h'
      subst h'
      have : 0 ∉ l := by
        rw [← List.count_eq_zero]
        exact h0
      exact this hx
    omega

theorem foldr_max_replicate_one (k : Nat) :
    (List.replicate (k + 1) 1).foldr max 0 = 1 := by
  induction k with
  | zero => rfl
  | succ k ih => simp only [List.replicate_succ, List.foldr_cons] at *; omega

theorem bincount_replicate_one (k : Nat) (hk : k ≠ 0) :
    bincount (List.replicate k 1) = [0, k] := by
  obtain ⟨k, rfl⟩ : ∃ j, k = j + 1 := ⟨k - 1, by omega⟩
  have hne : (List.replicate (k + 1) 1).isEmpty = false := by
    simp [List.isEmpty_iff, List.replicate_succ]
  simp only [bincount, hne, Bool.false_eq_true, if_false,
    foldr_max_replicate_one]
  have hrange : List.range 2 = [0, 1] := rfl
  rw [hrange]
  simp [List.count_replicate]

theorem npDiff_cons2 (a b : Nat) (t : List Nat) :
    npDiff (a :: b :: t) = (b - a) :: npDiff (b :: t) := rfl

theorem npDiff_length (l : List Nat) : (npDiff l).length = l.length - 1 := by
  simp [npDiff]

theorem chain_succ_iff_npDiff (l : List Nat) :
    List.Chain' (fun a b => b = a + 1) l ↔ ∀ x ∈ npDiff l, x = 1 := by
  induction l with
  | nil => simp [npDiff]
  | cons a t ih =>
    cases t with
    | nil => simp [npDiff]
    | cons b t2 =>
      rw [npDiff_cons2]
      rw [List.chain'_cons]
      constructor
      · rintro ⟨hstep, hch⟩
        intro x hx
        rcases List.mem_cons.mp hx with h | h
        · omega
        · exact (ih.mp hch) x h
      · intro hall
        constructor
        · have := hall (b - a) (by simp)
          omega
        · exact ih.mpr (fun x hx => hall x (by simp [hx]))

theorem chain_succ_npDiff_replicate (l : List Nat)
    (h : List.Chain' (fun a b => b = a + 1) l) :
    npDiff l = List.replicate (l.length - 1) 1 := by
  induction l with
  | nil => rfl
  | cons a t ih =>
    cases t with
    | nil => rfl
    | cons b t2 =>
      rw [List.chain'_cons] at h
      obtain ⟨hstep, hch⟩ := h
      rw [npDiff_cons2, ih hch]
      have : b - a = 1 := by omega
      simp [this, List.length_cons, List.replicate_succ]

theorem checkSequence_iff (packets : List DecodedPacket) :
    checkSequence packets = true ↔
      2 ≤ packets.length ∧
      List.Chain' (fun a b => b = a + 1)
        (packets.map (fun p => p.packet_sequence)) := by
  set l := packets.map (fun p => p.packet_sequence) with hl
  have hlen : l.length = packets.length := by simp [hl]
  rw [checkSequence, decide_eq_true_iff]
  constructor
  · intro h
    obtain ⟨hne, hall, hcnt⟩ := bincount_eq_pair _ _ h
    have hlen2 : 2 ≤ packets.length := by
      have h1 : (npDiff l).length = l.length - 1 := npDiff_length l
      have h2 : npDiff l ≠ [] := hne
      have h3 : 0 < (npDiff l).length := List.length_pos_of_ne_nil h2
      omega
    exact ⟨hlen2, (chain_succ_iff_npDiff l).mpr hall⟩
  · rintro ⟨hlen2, hch⟩
    have hd : npDiff l = List.replicate (l.length - 1) 1 :=
      chain_succ_npDiff_replicate l hch
    rw [hd, bincount_replicate_one (l.length - 1) (by omega), hlen]

theorem dropToEH_ne_nonContiguous (l : List DecodedPacket) (k : Nat) :
    dropToEH l k ≠ Except.error RErr.nonContiguous := by
  induction l generalizing k with
  | nil => simp [dropToEH]
  | cons p rest ih =>
    cases hp : p.payload with
    | eh f => simp [dropToEH, hp]
    | et => simpa [dropToEH, hp] using ih (k + 1)
    | dt ch fmt ns sd => simpa [dropToEH, hp] using ih (k + 1)

theorem collectDT_error_kind (packets : List DecodedPacket)
    (buckets : List (Nat × List Chunk)) (p : DecodedPacket) (e : RErr)
    (h : collectDT buckets p packets = Except.error e) :
    ∃ s, e = RErr.unimplementedEncoding s := by
  induction packets generalizing buckets p with
  | nil =>
    cases hp : p.payload with
    | eh f => rw [collectDT, hp] at h; simp at h
    | et => rw [collectDT, hp] at h; simp at h
    | dt ch fmt ns sd =>
      rw [collectDT, hp] at h
      by_cases hf : fmt = "C0"
      · simp [hf] at h
      · simp [hf] at h
        exact ⟨p.type, h.symm⟩
  | cons q rest ih =>
    cases hp : p.payload with
    | eh f => rw [collectDT, hp] at h; simp at h
    | et => rw [collectDT, hp] at h; simp at h
    | dt ch fmt ns sd =>
      rw [collectDT, hp] at h
      by_cases hf : fmt = "C0"
      · simp only [hf, ne_eq, not_true_eq_false, if_false] at h
        exact ih _ _ h
      · simp [hf] at h
        exact ⟨p.type, h.symm⟩

theorem channelCodeOf_error_kind (cc : Option (List String)) (eh : EHFields)
    (ch : Nat) (e : RErr) (h : channelCodeOf cc eh ch = Except.error e) :
    e = RErr.indexError := by
  cases cc with
  | none =>
    rw [channelCodeOf] at h
    cases hg : eh.channel_code.get? ch with
    | none => rw [hg] at h; simpa using h.symm
    | some o => cases o <;> rw [hg] at h <;> simp at h
  | some codes =>
    rw [channelCodeOf] at h
    cases hg : codes.get? ch with
    | none => rw [hg] at h; simpa using h.symm
    | some code => rw [hg] at h; simp at h

theorem traceOfRun_error_kind (network location station : String)
    (cc : Option (List String)) (eh : EHFields) (ch : Nat) (run : List Chunk)
    (e : RErr) (h : traceOfRun network location station cc eh ch run = Except.error e) :
    e = RErr.indexError ∨ e = RErr.inconsistentTrace := by
  cases run with
  | nil =>
    rw [traceOfRun] at h
    left
    exact (by simpa using h.symm)
  | cons c0 rest =>
    rw [traceOfRun] at h
    cases hcc : channelCodeOf cc eh ch with
    | error e2 =>
      rw [hcc] at h
      simp at h
      left
      subst h
      exact channelCodeOf_error_kind cc eh ch e2 hcc
    | ok z =>
      obtain ⟨code, warned⟩ := z
      rw [hcc] at h
      simp only at h
      split at h
      · simp at h
      · right
        simpa using h.symm

theorem emitRuns_error_kind (network location station : String)
    (cc : Option (List String)) (eh : EHFields) (ch : Nat)
    (runs : List (List Chunk)) (e : RErr)
    (h : (emitRuns network location station cc eh ch runs).1 = Except.error e) :
    e = RErr.indexError ∨ e = RErr.inconsistentTrace := by
  induction runs with
  | nil => simp [emitRuns] at h
  | cons run rest ih =>
    rw [emitRuns] at h
    cases ht : traceOfRun network location station cc eh ch run with
    | error e2 =>
      rw [ht] at h
      simp at h
      subst h
      exact traceOfRun_error_kind _ _ _ _ _ _ _ _ ht
    | ok z =>
      obtain ⟨tr, warned⟩ := z
      rw [ht] at h
      simp only at h
      cases hr : emitRuns network location station cc eh ch rest with
      | mk r ws =>
        rw [hr] at h
        cases r with
        | error e2 =>
          simp at h
          subst h
          exact ih (by rw [hr])
        | ok trs => simp at h

theorem emitChannels_error_kind (network location station : String)
    (cc : Option (List String)) (eh : EHFields)
    (buckets : List (Nat × List Chunk)) (e : RErr)
    (h : (emitChannels network location station cc eh buckets).1 = Except.error e) :
    e = RErr.indexError ∨ e = RErr.inconsistentTrace := by
  induction buckets with
  | nil => simp [emitChannels] at h
  | cons b rest ih =>
    obtain ⟨ch, chunks⟩ := b
    rw [emitChannels] at h
    cases hr : emitRuns network location station cc eh ch
        (splitContiguous (1 / eh.sampling_rate) (sortChunks chunks)) with
    | mk r ws =>
      rw [hr] at h
      cases r with
      | error e2 =>
        simp at h
        subst h
        exact emitRuns_error_kind _ _ _ _ _ _ _ _ (by rw [hr])
      | ok trs =>
        simp only at h
        cases hr2 : emitChannels network location station cc eh rest with
        | mk r2 ws2 =>
          rw [hr2] at h
          cases r2 with
          | error e2 =>
            simp at h
            subst h
            exact ih (by rw [hr2])
          | ok trs2 => simp at h

/-- C10: for every input from which exactly one packet is decoded, the
top-level decode raises the non-contiguous-sequence error (and so returns no
traces), although a single sequence number is vacuously contiguous: the
histogram of the empty diff list is the empty list, which never equals the
two-element vector [0, length - 1]. -/
theorem C10_single_packet (network location : String)
    (cc : Option (List String)) (p : DecodedPacket) :
    (_read_reftek130 network location cc [p]).1
      = Except.error RErr.nonContiguous := rfl

/-- A contiguity witness packet: a DT packet with the given sequence number. -/
def pktDT (seq : Nat) : DecodedPacket := ⟨seq, 0, Payload.dt 0 "C0" 0 []⟩

/-- C2 counterexample: a file decoding to exactly one packet has sorted
sequence numbers whose consecutive differences are all (vacuously) equal to
1, yet the decode raises the non-contiguous-sequence error rather than
proceeding. -/
theorem C2_counterexample :
    List.Chain' (fun a b => b = a + 1)
      ((sortBySeq [pktDT 5]).map (fun p => p.packet_sequence))
    ∧ (_read_reftek130 "" "" none [pktDT 5]).1
        = Except.error RErr.nonContiguous :=
  ⟨by simp [sortBySeq, List.insertionSort], rfl⟩

/-- C2 (amended): with at least two decoded packets, the decode raises the
non-contiguous fatal error exactly when the sorted sequence numbers do not
step by one everywhere, and otherwise the check passes and decoding proceeds
(no outcome is the non-contiguous error); a single-packet list always raises
the non-contiguous error. -/
theorem C2_sequence_check (network location : String)
    (cc : Option (List String)) (packets : List DecodedPacket)
    (hne : packets ≠ []) :
    ( ( packets.length = 1
        ∨ ¬ List.Chain' (fun a b => b = a + 1)
            ((sortBySeq packets).map (fun p => p.packet_sequence)) ) →
      (_read_reftek130 network location cc packets).1
        = Except.error RErr.nonContiguous )
    ∧ ( 2 ≤ packets.length →
        List.Chain' (fun a b => b = a + 1)
          ((sortBySeq packets).map (fun p => p.packet_sequence)) →
        (_read_reftek130 network location cc packets).1
          ≠ Except.error RErr.nonContiguous ) := by
  have hlen : (sortBySeq packets).length = packets.length :=
    (List.perm_insertionSort _ packets).length_eq
  have hpos : 0 < packets.length := List.length_pos_of_ne_nil hne
  have hempty : (sortBySeq packets).isEmpty = false := by
    rw [List.isEmpty_eq_false_iff_exists_mem]
    have : 0 < (sortBySeq packets).length := by omega
    exact List.exists_mem_of_length_pos this
  constructor
  · intro hbad
    have hc : checkSequence (sortBySeq packets) = false := by
      cases hc : checkSequence (sortBySeq packets) with
      | false => rfl
      | true =>
        obtain ⟨h2, hch⟩ := (checkSequence_iff (sortBySeq packets)).mp hc
        rcases hbad with h1 | hnch
        · omega
        · exact absurd hch hnch
    simp [_read_reftek130, hempty, hc]
  · intro h2 hch
    have hc : checkSequence (sortBySeq packets) = true :=
      (checkSequence_iff (sortBySeq packets)).mpr ⟨by omega, hch⟩
    intro hres
    simp only [_read_reftek130, hempty, Bool.false_eq_true, if_false, hc] at hres
    cases hd : dropToEH (sortBySeq packets) 0 with
    | error e =>
      rw [hd] at hres
      simp at hres
      exact dropToEH_ne_nonContiguous _ _ (by rw [hd, hres])
    | ok z =>
      obtain ⟨eh, rest, dropped⟩ := z
      rw [hd] at hres
      cases rest with
      | nil => simp at hres
      | cons p rest2 =>
        simp only at hres
        cases hcd : collectDT [] p rest2 with
        | error e =>
          rw [hcd] at hres
          simp at hres
          obtain ⟨s, hs⟩ := collectDT_error_kind _ _ _ _ hcd
          rw [hres] at hs
          simp at hs
        | ok z2 =>
          obtain ⟨buckets, plast, rem⟩ := z2
          rw [hcd] at hres
          simp only at hres
          cases hec : emitChannels network location
              (pyStrip (eh.station_name ++ eh.station_name_extension)) cc eh buckets with
          | mk r ws =>
            rw [hec] at hres
            cases r with
            | error e2 =>
              simp at hres
              rw [hres] at hec
              rcases emitChannels_error_kind _ _ _ _ _ _ _ (by rw [hec]) with h | h
                <;> simp at h
            | ok trs => simp at hres

/-- C2 witness: a concrete single-packet list falls in the error branch of
the amended statement. -/
theorem C2_sequence_check_witness :
    (_read_reftek130 "" "" none [pktDT 3]).1
      = Except.error RErr.nonContiguous :=
  (C2_sequence_check "" "" none [pktDT 3] (by decide)).1 (Or.inl (by decide))

theorem payload_eh_of_type (p : DecodedPacket) (h : p.type = "EH") :
    ∃ f, p.payload = Payload.eh f := by
  cases hp : p.payload with
  | eh f => exact ⟨f, rfl⟩
  | et => rw [DecodedPacket.type, hp] at h; simp [Payload.typeCode] at h
  | dt ch fmt ns sd => rw [DecodedPacket.type, hp] at h; simp [Payload.typeCode] at h

theorem dropToEH_no_eh (l : List DecodedPacket) (k : Nat)
    (h : ∀ q ∈ l, q.type ≠ "EH") :
    dropToEH l k = Except.error RErr.indexError := by
  induction l generalizing k with
  | nil => rfl
  | cons p rest ih =>
    have hp : p.type ≠ "EH" := h p (by simp)
    cases hpp : p.payload with
    | eh f => rw [DecodedPacket.type, hpp] at hp; simp [Payload.typeCode] at hp
    | et =>
      rw [dropToEH, hpp]
      exact ih (k + 1) (fun q hq => h q (by simp [hq]))
    | dt ch fmt ns sd =>
      rw [dropToEH, hpp]
      exact ih (k + 1) (fun q hq => h q (by simp [hq]))

theorem dropToEH_append (pre : List DecodedPacket) (e : DecodedPacket)
    (rest : List DecodedPacket) (f : EHFields) (k : Nat)
    (hpre : ∀ q ∈ pre, q.type ≠ "EH") (he : e.payload = Payload.eh f) :
    dropToEH (pre ++ e :: rest) k = Except.ok (f, rest, k + pre.length) := by
  induction pre generalizing k with
  | nil => rw [List.nil_append, dropToEH, he]; rfl
  | cons p pre2 ih =>
    have hp : p.type ≠ "EH" := hpre p (by simp)
    have harith : k + 1 + pre2.length = k + (p :: pre2).length := by
      simp [List.length_cons]; omega
    cases hpp : p.payload with
    | eh f2 => rw [DecodedPacket.type, hpp] at hp; simp [Payload.typeCode] at hp
    | et =>
      rw [List.cons_append, dropToEH, hpp,
        ih (k + 1) (fun q hq => hpre q (by simp [hq])), harith]
    | dt ch fmt ns sd =>
      rw [List.cons_append, dropToEH, hpp,
        ih (k + 1) (fun q hq => hpre q (by simp [hq])), harith]

/-- C8 counterexample: a two-DT-packet input with a sequence gap contains no
EH packet at all, yet the top-level decode fails with the
non-contiguous-sequence error, which is precisely the unsupported-feature
kind the claim says the failure is distinguishable from. -/
theorem C8_counterexample :
    (∀ q ∈ [pktDT 0, pktDT 2], q.type ≠ "EH")
    ∧ (_read_reftek130 "" "" none [pktDT 0, pktDT 2]).1
        = Except.error RErr.nonContiguous :=
  ⟨by decide, by decide⟩

/-- C8 (amended): for inputs that pass the packet-sequence contiguity check,
a sorted packet list without any EH packet makes the decode fail with the
IndexError kind, distinguishable from both unsupported-feature kinds; and
when leading non-EH packets precede the first EH packet, a warning reporting
their count is emitted. -/
theorem C8_missing_eh (network location : String) (cc : Option (List String))
    (packets : List DecodedPacket)
    (h2 : 2 ≤ packets.length)
    (hch : List.Chain' (fun a b => b = a + 1)
      ((sortBySeq packets).map (fun p => p.packet_sequence))) :
    ( (∀ q ∈ sortBySeq packets, q.type ≠ "EH") →
        (_read_reftek130 network location cc packets).1
          = Except.error RErr.indexError
        ∧ RErr.indexError ≠ RErr.nonContiguous
        ∧ (∀ s, RErr.indexError ≠ RErr.unimplementedEncoding s) )
    ∧ ( ∀ (pre : List DecodedPacket) (e : DecodedPacket)
          (rest : List DecodedPacket),
          sortBySeq packets = pre ++ e :: rest →
          (∀ q ∈ pre, q.type ≠ "EH") → e.type = "EH" → pre ≠ [] →
          Warn.droppedLeading pre.length
            ∈ (_read_reftek130 network location cc packets).2 ) := by
  have hlen : (sortBySeq packets).length = packets.length :=
    (List.perm_insertionSort _ packets).length_eq
  have hempty : (sortBySeq packets).isEmpty = false := by
    rw [List.isEmpty_eq_false_iff_exists_mem]
    exact List.exists_mem_of_length_pos (by omega)
  have hc : checkSequence (sortBySeq packets) = true :=
    (checkSequence_iff (sortBySeq packets)).mpr ⟨by omega, hch⟩
  constructor
  · intro hno
    have hd : dropToEH (sortBySeq packets) 0 = Except.error RErr.indexError :=
      dropToEH_no_eh _ 0 hno
    refine ⟨?_, by decide, by intro s; simp⟩
    simp [_read_reftek130, hempty, hc, hd]
  · intro pre e rest hsplit hpre he hprene
    obtain ⟨f, hf⟩ := payload_eh_of_type e he
    have hd : dropToEH (sortBySeq packets) 0 = Except.ok (f, rest, pre.length) := by
      rw [hsplit, dropToEH_append pre e rest f 0 hpre hf, Nat.zero_add]
    have hplen : pre.length ≠ 0 := by
      intro h0
      exact hprene (List.eq_nil_of_length_eq_zero h0)
    simp only [_read_reftek130, hempty, Bool.false_eq_true, if_false, hc, hd,
      hplen, ne_eq, not_false_eq_true, if_true]
    cases rest with
    | nil => simp
    | cons p rest2 =>
      cases hcd : collectDT [] p rest2 with
      | error e2 => simp [hcd]
      | ok z2 =>
        obtain ⟨buckets, plast, rem⟩ := z2
        cases hec : emitChannels network location
            (pyStrip (f.station_name ++ f.station_name_extension)) cc f buckets with
        | mk r ws => simp [hcd, hec]

/-- C8 witness: two contiguous DT packets and no EH packet give the
IndexError kind. -/
theorem C8_missing_eh_witness :
    (_read_reftek130 "" "" none [pktDT 3, pktDT 4]).1
      = Except.error RErr.indexError := by
  have hch : List.Chain' (fun a b => b = a + 1)
      ((sortBySeq [pktDT 3, pktDT 4]).map (fun p => p.packet_sequence)) := by
    show List.Chain' (fun a b => b = a + 1) [3, 4]
    simp [List.chain'_cons, List.chain'_singleton]
  exact ((C8_missing_eh "" "" none [pktDT 3, pktDT 4] (by norm_num) hch).1
    (by decide)).1

theorem splitGo_spec (delta : ℚ) (rest : List Chunk) :
    ∀ (acc : List Chunk) (lastc : Chunk),
      acc.getLast? = some lastc →
      List.Chain' (fun a b => b.t = a.t + (a.npts : ℚ) * delta) acc →
      (splitGo delta acc lastc rest).flatten = acc ++ rest
      ∧ (∀ r ∈ splitGo delta acc lastc rest,
          r ≠ [] ∧ List.Chain' (fun a b => b.t = a.t + (a.npts : ℚ) * delta) r)
      ∧ List.Chain'
          (fun r s => ∀ a ∈ r.getLast?, ∀ b ∈ s.head?,
            ¬ b.t = a.t + (a.npts : ℚ) * delta)
          (splitGo delta acc lastc rest)
      ∧ ∃ tl rs, splitGo delta acc lastc rest = (acc ++ tl) :: rs := by
  induction rest with
  | nil =>
    intro acc lastc hlast hchain
    have hne : acc ≠ [] := by
      intro h; rw [h] at hlast; simp at hlast
    refine ⟨by simp [splitGo], ?_, by simp [splitGo], ⟨[], [], by simp [splitGo]⟩⟩
    intro r hr
    rw [splitGo] at hr
    simp at hr
    subst hr
    exact ⟨hne, hchain⟩
  | cons c rest2 ih =>
    intro acc lastc hlast hchain
    have hne : acc ≠ [] := by
      intro h; rw [h] at hlast; simp at hlast
    rw [splitGo]
    by_cases hstep : c.t = lastc.t + (lastc.npts : ℚ) * delta
    · rw [if_pos hstep]
      have hlast2 : (acc ++ [c]).getLast? = some c := List.getLast?_concat acc
      have hchain2 : List.Chain'
          (fun a b => b.t = a.t + (a.npts : ℚ) * delta) (acc ++ [c]) := by
        rw [List.chain'_append]
        refine ⟨hchain, List.chain'_singleton c, ?_⟩
        intro x hx y hy
        rw [hlast] at hx
        simp at hx hy
        subst hx; subst hy
        exact hstep
      obtain ⟨hflat, hruns, hbnd, tl, rs, hshape⟩ := ih (acc ++ [c]) c hlast2 hchain2
      refine ⟨by rw [hflat]; simp, hruns, hbnd, ⟨[c] ++ tl, rs, by rw [hshape]; simp⟩⟩
    · rw [if_neg hstep]
      have hlast1 : [c].getLast? = some c := rfl
      obtain ⟨hflat, hruns, hbnd, tl, rs, hshape⟩ :=
        ih [c] c hlast1 (List.chain'_singleton c)
      refine ⟨?_, ?_, ?_, ⟨[], splitGo delta [c] c rest2, by simp⟩⟩
      · simp only [List.flatten_cons, hflat]
        simp
      · intro r hr
        rcases List.mem_cons.mp hr with h | h
        · subst h; exact ⟨hne, hchain⟩
        · exact hruns r h
      · rw [List.chain'_cons']
        refine ⟨?_, hbnd⟩
        intro y hy
        rw [hshape] at hy
        simp only [List.head?_cons, Option.mem_def, Option.some.injEq] at hy
        subst hy
        intro a ha b hb
        rw [hlast] at ha
        simp at ha hb
        subst ha; subst hb
        exact hstep

/-- C4: in the per-channel splitting of a channel's tuple list into runs, the
runs concatenate back to the input list, consecutive tuples inside one run
always satisfy the exact seamless-time equation, and at every boundary
between consecutive runs the equation fails; so two consecutive tuples share
a run exactly when the later one starts at the earlier one's start plus its
sample count times the sample period. -/
theorem C4_run_partition (delta : ℚ) (l : List Chunk) :
    (splitContiguous delta l).flatten = l
    ∧ (∀ r ∈ splitContiguous delta l,
        r ≠ [] ∧ List.Chain' (fun a b => b.t = a.t + (a.npts : ℚ) * delta) r)
    ∧ List.Chain'
        (fun r s => ∀ a ∈ r.getLast?, ∀ b ∈ s.head?,
          ¬ b.t = a.t + (a.npts : ℚ) * delta)
        (splitContiguous delta l) := by
  cases l with
  | nil => refine ⟨rfl, by simp [splitContiguous], by simp [splitContiguous]⟩
  | cons c rest =>
    obtain ⟨hflat, hruns, hbnd, _⟩ :=
      splitGo_spec delta rest [c] c rfl (List.chain'_singleton c)
    exact ⟨hflat, hruns, hbnd⟩

/-- C4 witness: a concrete two-tuple channel with a gap splits into two
runs whose concatenation is the input. -/
theorem C4_run_partition_witness :
    (splitContiguous 1 [⟨0, 0, 2, []⟩, ⟨3, 1, 1, []⟩]).flatten
      = [⟨0, 0, 2, []⟩, ⟨3, 1, 1, []⟩] :=
  (C4_run_partition 1 [⟨0, 0, 2, []⟩, ⟨3, 1, 1, []⟩]).1

/-- C3: every trace the run reconstruction emits has as many samples as the
declared sample counts of its run's DT tuples sum to, and its end time is
exactly the start time plus (sample count - 1) sample periods; and whenever
the would-be trace fails the consistency check (the channel naming having
succeeded), the reconstruction raises the inconsistent-trace error instead
of emitting anything. -/
theorem C3_trace_consistency (network location station : String)
    (cc : Option (List String)) (eh : EHFields) (ch : Nat) (run : List Chunk) :
    ( ∀ (tr : RTrace) (w : Bool),
        traceOfRun network location station cc eh ch run = Except.ok (tr, w) →
        tr.data.length = (run.map (fun c => c.npts)).sum
        ∧ tr.endtime = tr.starttime
            + (((((run.map (fun c => c.npts)).sum : ℕ) : ℚ)) - 1)
              * (1 / eh.sampling_rate) )
    ∧ ( run ≠ [] → (∃ z, channelCodeOf cc eh ch = Except.ok z) →
        traceOfRun network location station cc eh ch run
            = Except.error RErr.inconsistentTrace
        ∨ ∃ tr w, traceOfRun network location station cc eh ch run
            = Except.ok (tr, w) ) := by
  constructor
  · intro tr w hok
    cases run with
    | nil => simp [traceOfRun] at hok
    | cons c0 rest =>
      simp only [traceOfRun] at hok
      cases hcc : channelCodeOf cc eh ch with
      | error e => rw [hcc] at hok; simp at hok
      | ok z =>
        obtain ⟨code, warned⟩ := z
        rw [hcc] at hok
        simp only at hok
        split at hok
        · rename_i hguard
          obtain ⟨h1, h2, h3⟩ := hguard
          simp only [Except.ok.injEq, Prod.mk.injEq] at hok
          obtain ⟨htr, hw⟩ := hok
          subst htr
          exact ⟨h1.symm, h3⟩
        · simp at hok
  · intro hne hz
    obtain ⟨z, hcc⟩ := hz
    obtain ⟨code, warned⟩ := z
    cases run with
    | nil => exact absurd rfl hne
    | cons c0 rest =>
      simp only [traceOfRun, hcc]
      split
      · right; exact ⟨_, _, rfl⟩
      · left; rfl

/-- C3 witness: a concrete one-tuple run at 1 Hz yields a trace with the
declared sample count and the exact end time, and a gapped run is rejected
as inconsistent. -/
theorem C3_trace_consistency_witness :
    traceOfRun "" "" "" none ⟨"S", "", "HH", 1, [some "HHZ"]⟩ 0
        [⟨0, 0, 2, []⟩, ⟨5, 1, 1, []⟩]
      = Except.error RErr.inconsistentTrace
    ∨ ∃ tr w, traceOfRun "" "" "" none ⟨"S", "", "HH", 1, [some "HHZ"]⟩ 0
        [⟨0, 0, 2, []⟩, ⟨5, 1, 1, []⟩]
      = Except.ok (tr, w) :=
  (C3_trace_consistency "" "" "" none ⟨"S", "", "HH", 1, [some "HHZ"]⟩ 0
    [⟨0, 0, 2, []⟩, ⟨5, 1, 1, []⟩]).2 (by decide)
    ⟨("HHZ", false), by decide⟩

/-- C5: channel naming follows the strict three-tier priority: explicit
component codes win and give the stripped stream label concatenated with the
indexed component code regardless of the EH table; otherwise a non-null EH
channel-code entry is used verbatim; otherwise the code is the stripped
stream label concatenated with the decimal channel number, with the
non-fatal fallback warning. -/
theorem C5_channel_naming (cc : List String) (code : String)
    (eh : EHFields) (ch : Nat) :
    ( cc.get? ch = some code →
        channelCodeOf (some cc) eh ch
          = Except.ok (pyStrip eh.stream_name ++ code, false) )
    ∧ ( eh.channel_code.get? ch = some (some code) →
        channelCodeOf none eh ch = Except.ok (code, false) )
    ∧ ( eh.channel_code.get? ch = some none →
        channelCodeOf none eh ch
          = Except.ok (pyStrip eh.stream_name ++ toString ch, true) ) := by
  refine ⟨?_, ?_, ?_⟩ <;> intro h <;> simp only [channelCodeOf] <;> rw [h]

/-- C5 witness: concrete inputs exercise the first and third tiers. -/
theorem C5_channel_naming_witness :
    channelCodeOf (some ["Z"]) ⟨"S", "", "HH", 100, [some "ABC"]⟩ 0
      = Except.ok ("HHZ", false) := by
  have h := (C5_channel_naming ["Z"] "Z" ⟨"S", "", "HH", 100, [some "ABC"]⟩ 0).1 rfl
  simpa using h

/-- The loop guard p.type == "DT", as a Bool predicate. -/
def isDTb (q : DecodedPacket) : Bool := decide (q.type = "DT")

/-- The tuple a DT packet contributes, with its channel number. -/
def dtChunk (q : DecodedPacket) : Option (Nat × Chunk) :=
  match q.payload with
  | Payload.dt ch _ ns sd => some (ch, ⟨q.time, q.packet_sequence, ns, sd⟩)
  | _ => none

/-- The data_format field of a DT packet (empty for the other types). -/
def dtFormat (q : DecodedPacket) : String :=
  match q.payload with
  | Payload.dt _ fmt _ _ => fmt
  | _ => ""

theorem bucketFind_nil (ch : Nat) : bucketFind [] ch = [] := rfl

theorem bucketFind_cons (k : Nat) (l : List Chunk)
    (rest : List (Nat × List Chunk)) (ch : Nat) :
    bucketFind ((k, l) :: rest) ch
      = if k = ch then l else bucketFind rest ch := by
  by_cases h : k = ch
  · subst h; simp [bucketFind, List.find?]
  · have hb : (k == ch) = false := by simp [h]
    simp [bucketFind, List.find?, hb, h]

theorem bucketFind_bucketAdd (ch0 ch : Nat) (c : Chunk)
    (b : List (Nat × List Chunk)) :
    bucketFind (bucketAdd b ch0 c) ch
      = bucketFind b ch ++ (if ch0 = ch then [c] else []) := by
  induction b with
  | nil =>
    rw [bucketAdd, bucketFind_cons, bucketFind_nil]
    by_cases h : ch0 = ch <;> simp [h]
  | cons e rest ih =>
    obtain ⟨k, l⟩ := e
    by_cases hk : k = ch0
    · by_cases hc : k = ch
      · have hcc : ch0 = ch := hk.symm.trans hc
        rw [bucketAdd, if_pos hk, bucketFind_cons, if_pos hc,
          bucketFind_cons, if_pos hc, if_pos hcc]
      · have hcc : ch0 ≠ ch := fun h => hc (hk.trans h)
        rw [bucketAdd, if_pos hk, bucketFind_cons, if_neg hc,
          bucketFind_cons, if_neg hc, if_neg hcc, List.append_nil]
    · rw [bucketAdd, if_neg hk, bucketFind_cons, bucketFind_cons]
      by_cases hc : k = ch
      · have hcc : ch0 ≠ ch := fun h => hk (hc.trans h.symm)
        rw [if_pos hc, if_pos hc, if_neg hcc, List.append_nil]
      · rw [if_neg hc, if_neg hc]
        exact ih

theorem isDTb_payload (q : DecodedPacket) (ch : Nat) (fmt : String) (ns : Nat)
    (sd : List Nat) (h : q.payload = Payload.dt ch fmt ns sd) :
    isDTb q = true := by
  simp [isDTb, DecodedPacket.type, h, Payload.typeCode]

theorem isDTb_eh (q : DecodedPacket) (f : EHFields)
    (h : q.payload = Payload.eh f) : isDTb q = false := by
  simp [isDTb, DecodedPacket.type, h, Payload.typeCode]

theorem isDTb_et (q : DecodedPacket) (h : q.payload = Payload.et) :
    isDTb q = false := by
  simp [isDTb, DecodedPacket.type, h, Payload.typeCode]

theorem collectDT_eh (buckets : List (Nat × List Chunk)) (p : DecodedPacket)
    (packets : List DecodedPacket) (f : EHFields)
    (hp : p.payload = Payload.eh f) :
    collectDT buckets p packets = Except.ok (buckets, p, packets) := by
  rw [collectDT, hp]

theorem collectDT_et (buckets : List (Nat × List Chunk)) (p : DecodedPacket)
    (packets : List DecodedPacket) (hp : p.payload = Payload.et) :
    collectDT buckets p packets = Except.ok (buckets, p, packets) := by
  rw [collectDT, hp]

theorem collectDT_dt_bad (buckets : List (Nat × List Chunk))
    (p : DecodedPacket) (packets : List DecodedPacket) (ch : Nat)
    (fmt : String) (ns : Nat) (sd : List Nat)
    (hp : p.payload = Payload.dt ch fmt ns sd) (hf : fmt ≠ "C0") :
    collectDT buckets p packets
      = Except.error (RErr.unimplementedEncoding p.type) := by
  rw [collectDT, hp]
  simp [hf]

theorem collectDT_dt_good_nil (buckets : List (Nat × List Chunk))
    (p : DecodedPacket) (ch : Nat) (ns : Nat) (sd : List Nat)
    (hp : p.payload = Payload.dt ch "C0" ns sd) :
    collectDT buckets p []
      = Except.ok (bucketAdd buckets ch ⟨p.time, p.packet_sequence, ns, sd⟩,
          p, []) := by
  rw [collectDT, hp]
  simp

theorem collectDT_dt_good_cons (buckets : List (Nat × List Chunk))
    (p q : DecodedPacket) (rest : List DecodedPacket) (ch : Nat) (ns : Nat)
    (sd : List Nat) (hp : p.payload = Payload.dt ch "C0" ns sd) :
    collectDT buckets p (q :: rest)
      = collectDT (bucketAdd buckets ch ⟨p.time, p.packet_sequence, ns, sd⟩)
          q rest := by
  rw [collectDT, hp]
  simp

theorem dtChunk_dt (q : DecodedPacket) (ch : Nat) (fmt : String) (ns : Nat)
    (sd : List Nat) (h : q.payload = Payload.dt ch fmt ns sd) :
    dtChunk q = some (ch, ⟨q.time, q.packet_sequence, ns, sd⟩) := by
  rw [dtChunk, h]

theorem collectDT_bad_format (packets : List DecodedPacket) :
    ∀ (p : DecodedPacket) (buckets : List (Nat × List Chunk)),
      (∃ q ∈ (p :: packets).takeWhile isDTb, dtFormat q ≠ "C0") →
      ∃ s, collectDT buckets p packets
        = Except.error (RErr.unimplementedEncoding s) := by
  induction packets with
  | nil =>
    intro p buckets hex
    obtain ⟨q, hq, hfmt⟩ := hex
    cases hp : p.payload with
    | eh f =>
      rw [List.takeWhile_cons, isDTb_eh p f hp] at hq
      simp at hq
    | et =>
      rw [List.takeWhile_cons, isDTb_et p hp] at hq
      simp at hq
    | dt ch fmt ns sd =>
      by_cases hf : fmt = "C0"
      · have hTW : ([p] : List DecodedPacket).takeWhile isDTb = [p] := by
          simp [List.takeWhile_cons, isDTb_payload p ch fmt ns sd hp]
        rw [hTW] at hq
        have h1 : q = p := by simpa using hq
        subst h1
        rw [dtFormat, hp, hf] at hfmt
        exact absurd rfl hfmt
      · exact ⟨p.type, collectDT_dt_bad buckets p [] ch fmt ns sd hp hf⟩
  | cons q2 rest ih =>
    intro p buckets hex
    obtain ⟨q, hq, hfmt⟩ := hex
    cases hp : p.payload with
    | eh f =>
      rw [List.takeWhile_cons, isDTb_eh p f hp] at hq
      simp at hq
    | et =>
      rw [List.takeWhile_cons, isDTb_et p hp] at hq
      simp at hq
    | dt ch fmt ns sd =>
      by_cases hf : fmt = "C0"
      · have hTW : (p :: q2 :: rest).takeWhile isDTb
            = p :: (q2 :: rest).takeWhile isDTb := by
          simp [List.takeWhile_cons, isDTb_payload p ch fmt ns sd hp]
        rw [hTW] at hq
        rcases List.mem_cons.mp hq with h1 | h1
        · subst h1
          rw [dtFormat, hp, hf] at hfmt
          exact absurd rfl hfmt
        · subst hf
          obtain ⟨s, hs⟩ := ih q2
            (bucketAdd buckets ch ⟨p.time, p.packet_sequence, ns, sd⟩)
            ⟨q, h1, hfmt⟩
          refine ⟨s, ?_⟩
          rw [collectDT_dt_good_cons buckets p q2 rest ch ns sd hp]
          exact hs
      · exact ⟨p.type, collectDT_dt_bad buckets p (q2 :: rest) ch fmt ns sd hp hf⟩

theorem collectDT_good_format (packets : List DecodedPacket) :
    ∀ (p : DecodedPacket) (buckets : List (Nat × List Chunk)),
      (∀ q ∈ (p :: packets).takeWhile isDTb, dtFormat q = "C0") →
      ∃ bk plast rem,
        collectDT buckets p packets = Except.ok (bk, plast, rem)
        ∧ ∀ ch, bucketFind bk ch
            = bucketFind buckets ch
              ++ ((((p :: packets).takeWhile isDTb).filterMap dtChunk).filter
                  (fun e => e.1 == ch)).map (fun e => e.2) := by
  induction packets with
  | nil =>
    intro p buckets hgood
    cases hp : p.payload with
    | eh f =>
      refine ⟨buckets, p, [], collectDT_eh buckets p [] f hp, ?_⟩
      intro ch
      rw [List.takeWhile_cons, isDTb_eh p f hp]
      simp
    | et =>
      refine ⟨buckets, p, [], collectDT_et buckets p [] hp, ?_⟩
      intro ch
      rw [List.takeWhile_cons, isDTb_et p hp]
      simp
    | dt ch0 fmt ns sd =>
      have hdt := isDTb_payload p ch0 fmt ns sd hp
      have hTW : ([p] : List DecodedPacket).takeWhile isDTb = [p] := by
        simp [List.takeWhile_cons, hdt]
      have hpfmt : fmt = "C0" := by
        have := hgood p (by rw [hTW]; simp)
        rwa [dtFormat, hp] at this
      subst hpfmt
      refine ⟨bucketAdd buckets ch0 ⟨p.time, p.packet_sequence, ns, sd⟩, p, [],
        collectDT_dt_good_nil buckets p ch0 ns sd hp, ?_⟩
      intro ch
      rw [hTW, bucketFind_bucketAdd]
      simp only [List.filterMap_cons, dtChunk_dt p ch0 "C0" ns sd hp,
        List.filterMap_nil, List.filter_cons, List.filter_nil]
      by_cases hc : ch0 = ch
      · subst hc; simp
      · have hb : (ch0 == ch) = false := by simp [hc]
        rw [hb]
        simp [hc]
  | cons q2 rest ih =>
    intro p buckets hgood
    cases hp : p.payload with
    | eh f =>
      refine ⟨buckets, p, q2 :: rest, collectDT_eh buckets p (q2 :: rest) f hp, ?_⟩
      intro ch
      rw [List.takeWhile_cons, isDTb_eh p f hp]
      simp
    | et =>
      refine ⟨buckets, p, q2 :: rest, collectDT_et buckets p (q2 :: rest) hp, ?_⟩
      intro ch
      rw [List.takeWhile_cons, isDTb_et p hp]
      simp
    | dt ch0 fmt ns sd =>
      have hdt := isDTb_payload p ch0 fmt ns sd hp
      have hTW : (p :: q2 :: rest).takeWhile isDTb
          = p :: (q2 :: rest).takeWhile isDTb := by
        simp [List.takeWhile_cons, hdt]
      have hpfmt : fmt = "C0" := by
        have := hgood p (by rw [hTW]; simp)
        rwa [dtFormat, hp] at this
      subst hpfmt
      have hgood2 : ∀ q ∈ (q2 :: rest).takeWhile isDTb, dtFormat q = "C0" := by
        intro q hq
        refine hgood q ?_
        rw [hTW]
        simp [hq]
      obtain ⟨bk, plast, rem, hok, hcontent⟩ :=
        ih q2 (bucketAdd buckets ch0 ⟨p.time, p.packet_sequence, ns, sd⟩) hgood2
      refine ⟨bk, plast, rem, ?_, ?_⟩
      · rw [collectDT_dt_good_cons buckets p q2 rest ch0 ns sd hp]
        exact hok
      · intro ch
        rw [hcontent ch, bucketFind_bucketAdd, hTW]
        simp only [List.filterMap_cons, dtChunk_dt p ch0 "C0" ns sd hp,
          List.filter_cons]
        by_cases hc : ch0 = ch
        · subst hc
          have hb : (ch0 == ch0) = true := by simp
          rw [hb]
          simp [List.append_assoc]
        · have hb : (ch0 == ch) = false := by simp [hc]
          rw [hb]
          simp [hc]

/-- C7: during DT collection, if any consumed DT packet's data_format is not
the supported "C0", the whole collection aborts with the
unimplemented-encoding error (so the file decode returns no trace list);
with the supported encoding the collection succeeds and every consumed DT
packet's tuple is appended to its channel's bucket, in consumption order. -/
theorem C7_encoding_check (p : DecodedPacket) (packets : List DecodedPacket)
    (buckets : List (Nat × List Chunk)) :
    ( (∃ q ∈ (p :: packets).takeWhile isDTb, dtFormat q ≠ "C0") →
      ∃ s, collectDT buckets p packets
        = Except.error (RErr.unimplementedEncoding s) )
    ∧ ( (∀ q ∈ (p :: packets).takeWhile isDTb, dtFormat q = "C0") →
      ∃ bk plast rem,
        collectDT buckets p packets = Except.ok (bk, plast, rem)
        ∧ ∀ ch, bucketFind bk ch
            = bucketFind buckets ch
              ++ ((((p :: packets).takeWhile isDTb).filterMap dtChunk).filter
                  (fun e => e.1 == ch)).map (fun e => e.2) ) :=
  ⟨collectDT_bad_format packets p buckets,
   collectDT_good_format packets p buckets⟩

/-- C7 witness: a single DT packet with encoding "16" aborts collection with
the unimplemented-encoding error. -/
theorem C7_encoding_check_witness :
    ∃ s, collectDT [] ⟨0, 0, Payload.dt 0 "16" 5 []⟩ []
      = Except.error (RErr.unimplementedEncoding s) :=
  (C7_encoding_check ⟨0, 0, Payload.dt 0 "16" 5 []⟩ [] []).1
    ⟨⟨0, 0, Payload.dt 0 "16" 5 []⟩, by decide, by decide⟩

/-- C6 failing input: a regular file of exactly 1024 bytes whose two
type-field bytes are both 0xFF. -/
def fileFF : List Nat := [255, 255] ++ List.replicate 1022 0

/-- C6: the sniffer accepts this structurally-sized file although its one
stride's type field matches no recognized packet type: the two non-ASCII
bytes decode (with "ignore") to the empty string, which the scan loop takes
for end of file and so returns True instead of False. -/
theorem C6_sniffer_accepts_unrecognized :
    _is_reftek130 (some fileFF) = true
    ∧ fileFF.length = 1024
    ∧ ∀ t ∈ PACKETS_IMPLEMENTED,
        fileFF.take 2 ≠ t.data.map (fun c => c.toNat) := by
  refine ⟨?_, by decide, by decide⟩
  rw [_is_reftek130]
  rw [scanPacketTypes.eq_def]
  decide

theorem blockAt_zero (bytes : List Nat) : blockAt bytes 0 = bytes.take 1024 := by
  simp [blockAt]

theorem blockAt_succ (bytes : List Nat) (k : Nat) :
    blockAt bytes (k + 1) = blockAt (bytes.drop 1024) k := by
  rw [blockAt, blockAt, List.drop_drop]
  have h : 1024 + 1024 * k = 1024 * (k + 1) := by ring
  rw [h]

/-- C1 (amended): the packet sequencer collects the longest prefix of blocks
that all decode: the n-th collected packet exists and equals the n-th
block's packet exactly when every block up to the n-th yields a packet; a
block that yields none (end of file, incomplete block, or a caught decode
exception) ends collection, so later decodable blocks are not collected. -/
theorem C1_collection_stops (bytes : List Nat) (n : Nat) (p : Packet) :
    (_read_into_packetlist bytes).get? n = some p ↔
      (∀ k, k ≤ n → (_parse_next_packet (blockAt bytes k)).isSome = true)
      ∧ _parse_next_packet (blockAt bytes n) = some p := by
  induction n generalizing bytes with
  | zero =>
    rw [_read_into_packetlist.eq_def]
    cases hb : bytes.isEmpty with
    | true =>
      have hbe : bytes = [] := by simpa [List.isEmpty_iff] using hb
      subst hbe
      simp [blockAt, _parse_next_packet]
    | false =>
      simp only [Bool.false_eq_true, if_false]
      cases hparse : _parse_next_packet (bytes.take 1024) with
      | none => simp [blockAt_zero, hparse]
      | some q =>
        constructor
        · intro h
          rw [List.get?_cons_zero] at h
          refine ⟨?_, ?_⟩
          · intro k hk
            have hk0 : k = 0 := by omega
            subst hk0
            rw [blockAt_zero, hparse]
            rfl
          · rw [blockAt_zero, hparse]
            exact h
        · rintro ⟨h1, h2⟩
          rw [blockAt_zero, hparse] at h2
          rw [List.get?_cons_zero]
          exact h2
  | succ n ih =>
    cases hb : bytes.isEmpty with
    | true =>
      have hbe : bytes = [] := by simpa [List.isEmpty_iff] using hb
      subst hbe
      rw [_read_into_packetlist.eq_def]
      simp [blockAt, _parse_next_packet]
    | false =>
      rw [_read_into_packetlist.eq_def]
      simp only [hb, Bool.false_eq_true, if_false]
      cases hparse : _parse_next_packet (bytes.take 1024) with
      | none =>
        simp only [List.get?_nil]
        constructor
        · intro h; simp at h
        · rintro ⟨h1, h2⟩
          have h0 := h1 0 (by omega)
          rw [blockAt_zero, hparse] at h0
          simp at h0
      | some q =>
        simp only [List.get?_cons_succ]
        rw [ih (bytes.drop 1024)]
        constructor
        · rintro ⟨h1, h2⟩
          refine ⟨?_, ?_⟩
          · intro k hk
            cases k with
            | zero => rw [blockAt_zero, hparse]; rfl
            | succ j =>
              rw [blockAt_succ]
              exact h1 j (by omega)
          · rw [blockAt_succ]
            exact h2
        · rintro ⟨h1, h2⟩
          refine ⟨?_, ?_⟩
          · intro k hk
            rw [← blockAt_succ]
            exact h1 (k + 1) (by omega)
          · rw [← blockAt_succ]
            exact h2

/-- A block whose type field "XX" is not a recognized packet type (the
constructor would raise ValueError). -/
def blkXX : List Nat := [88, 88] ++ List.replicate 1022 0

/-- A block that decodes to an EH packet with all-zero header digits. -/
def blkEH : List Nat := [69, 72] ++ List.replicate 1022 0

/-- C1 counterexample file: an undecodable block followed by a decodable
one. -/
def fileC1 : List Nat := blkXX ++ blkEH

/-- C1 counterexample: the second block of the file decodes to a packet, but
because the first block fails to decode the sequencer returns the empty
list; the decodable block after the dropped one does not appear in the
collected sequence. -/
theorem C1_counterexample :
    (_parse_next_packet (blockAt fileC1 1)).isSome = true
    ∧ _read_into_packetlist fileC1 = [] := by
  constructor
  · decide
  · rw [_read_into_packetlist.eq_def]
    decide

theorem intOfNibs_two (d0 d1 v : Nat) (h : intOfNibs [d0, d1] = some v) :
    d0 < 10 ∧ d1 < 10 ∧ v = 10 * d0 + d1 := by
  rw [intOfNibs] at h
  simp only [List.cons_ne_nil, if_false, reduceCtorEq] at h
  by_cases hall : ([d0, d1] : List Nat).all (fun d => d < 10) = true
  · rw [if_pos hall] at h
    simp only [List.all_cons, List.all_nil, Bool.and_true, Bool.and_eq_true,
      decide_eq_true_eq] at hall
    simp only [List.foldl_cons, List.foldl_nil, Option.some.injEq] at h
    exact ⟨hall.1, hall.2, by omega⟩
  · rw [if_neg hall] at h
    simp at h

theorem intOfNibs_four (d0 d1 d2 d3 v : Nat)
    (h : intOfNibs [d0, d1, d2, d3] = some v) :
    v = 1000 * d0 + 100 * d1 + 10 * d2 + d3 := by
  rw [intOfNibs] at h
  simp only [List.cons_ne_nil, if_false, reduceCtorEq] at h
  by_cases hall : ([d0, d1, d2, d3] : List Nat).all (fun d => d < 10) = true
  · rw [if_pos hall] at h
    simp only [List.foldl_cons, List.foldl_nil, Option.some.injEq] at h
    omega
  · rw [if_neg hall] at h
    simp at h

theorem decodeAscii_some (bs : List Nat) (t : String)
    (h : decodeAscii bs = some t) :
    t = String.mk (bs.map Char.ofNat) := by
  rw [decodeAscii] at h
  by_cases hall : bs.all (fun b => b < 128) = true
  · rw [if_pos hall] at h
    simpa using h.symm
  · rw [if_neg hall] at h
    simp at h

/-- The k-th packed-decimal digit of a block: the high (even k) or low
(odd k) nibble of byte k / 2. -/
def nibAt (s : List Nat) (k : Nat) : Nat :=
  if k % 2 = 0 then s.getD (k / 2) 0 / 16 else s.getD (k / 2) 0 % 16

/-- C9: a 1024-byte block that decodes yields a packet whose type is the
plain ASCII of bytes 0-1, experiment number the packed digits 4-5, year the
integer value of digits 6-7, unit id digits 8-11 rendered uppercase, time
fed the digit string 12-23 (null when the year digits read zero), byte count
the integer value of digits 24-27, packet sequence the integer value of
digits 28-31 and payload bytes 16-1023; a block shorter than 1024 bytes
yields no packet (warned, not fatal). -/
theorem C9_from_string_fields :
    ( ∀ (s : List Nat) (p : Packet),
        Packet.from_string s = Except.ok (some p) →
        s.length = 1024
        ∧ p.type = String.mk ((s.take 2).map Char.ofNat)
        ∧ p.experiment_number
            = String.mk [hexChar (nibAt s 4), hexChar (nibAt s 5)]
        ∧ p.year = 10 * nibAt s 6 + nibAt s 7
        ∧ p.unit_id = String.mk [hexCharUpper (nibAt s 8),
            hexCharUpper (nibAt s 9), hexCharUpper (nibAt s 10),
            hexCharUpper (nibAt s 11)]
        ∧ p.time = (if p.year ≠ 0 then
              some (_parse_short_time p.year (String.mk
                [hexChar (nibAt s 12), hexChar (nibAt s 13),
                 hexChar (nibAt s 14), hexChar (nibAt s 15),
                 hexChar (nibAt s 16), hexChar (nibAt s 17),
                 hexChar (nibAt s 18), hexChar (nibAt s 19),
                 hexChar (nibAt s 20), hexChar (nibAt s 21),
                 hexChar (nibAt s 22), hexChar (nibAt s 23)]))
            else none)
        ∧ p.byte_count = 1000 * nibAt s 24 + 100 * nibAt s 25
            + 10 * nibAt s 26 + nibAt s 27
        ∧ p.packet_sequence = 1000 * nibAt s 28 + 100 * nibAt s 29
            + 10 * nibAt s 30 + nibAt s 31
        ∧ p.payload = s.drop 16 )
    ∧ ( ∀ s : List Nat, s.length < 1024 →
        Packet.from_string s = Except.ok none ) := by
  constructor
  · intro s p hok
    have hlen : s.length = 1024 := by
      by_contra hne
      rw [Packet.from_string, if_pos hne] at hok
      simp at hok
    rcases s with _ | ⟨b0, s⟩
    · simp at hlen
    rcases s with _ | ⟨b1, s⟩
    · simp at hlen
    rcases s with _ | ⟨b2, s⟩
    · simp at hlen
    rcases s with _ | ⟨b3, s⟩
    · simp at hlen
    rcases s with _ | ⟨b4, s⟩
    · simp at hlen
    rcases s with _ | ⟨b5, s⟩
    · simp at hlen
    rcases s with _ | ⟨b6, s⟩
    · simp at hlen
    rcases s with _ | ⟨b7, s⟩
    · simp at hlen
    rcases s with _ | ⟨b8, s⟩
    · simp at hlen
    rcases s with _ | ⟨b9, s⟩
    · simp at hlen
    rcases s with _ | ⟨b10, s⟩
    · simp at hlen
    rcases s with _ | ⟨b11, s⟩
    · simp at hlen
    rcases s with _ | ⟨b12, s⟩
    · simp at hlen
    rcases s with _ | ⟨b13, s⟩
    · simp at hlen
    rcases s with _ | ⟨b14, s⟩
    · simp at hlen
    rcases s with _ | ⟨b15, s⟩
    · simp at hlen
    rw [Packet.from_string, if_neg (fun hne => hne hlen)] at hok
    split at hok
    · simp at hok
    rename_i packet_type heq1
    split at hok
    · simp at hok
    rename_i year heq2
    split at hok
    · simp at hok
    rename_i byte_count heq3
    split at hok
    · simp at hok
    rename_i packet_sequence heq4
    split at hok
    · simp at hok
    simp only [Except.ok.injEq, Option.some.injEq] at hok
    subst hok
    have h2 := intOfNibs_two _ _ _ heq2
    have h3 := intOfNibs_four _ _ _ _ _ heq3
    have h4 := intOfNibs_four _ _ _ _ _ heq4
    exact ⟨hlen, decodeAscii_some _ _ heq1, rfl, h2.2.2, rfl, rfl, h3, h4, rfl⟩
  · intro s hlt
    rw [Packet.from_string, if_pos (by omega)]

/-- C9 witness: a 3-byte block is an incomplete packet and yields none. -/
theorem C9_from_string_fields_witness :
    Packet.from_string [1, 2, 3] = Except.ok none :=
  C9_from_string_fields.2 [1, 2, 3] (by decide)
